import Mathlib

/-
Verification of the serp-traits specification against the repository.

The repository `Setheum-Labs/serp-traits` is a trait (interface) crate: the
files under `src/` declare the `Stp258Currency` ledger interface, the
`SerpMarket` quoting interface and the `SerpTes` supply-elasticity interface,
together with two concrete items: the unit implementations of the dust
handlers (`impl OnDust for ()`, `impl OnStp258Dust for ()`) and the
`DefaultSerpTesPriceProvider` price adapter.  The ledger, controller and
quoting algorithms themselves are not implemented in this repository; they
are specified by the crate documentation and the accompanying spec.  Where a
definition below embeds actual repository code its doc comment says so;
every definition whose deciding code is absent from the repository is marked
`Modelled from the spec:` and follows the spec text literally.
-/

set_option linter.unusedSectionVars false
set_option linter.unusedVariables false

namespace SerpTraits

/-- Modelled from the spec: `Balance` is an unsigned fixed-width integer
(128-bit in the substrate hosts this crate targets); arithmetic past this
bound is a hard `Overflow` failure, never silent truncation. -/
def maxBalance : ℕ := 2 ^ 128 - 1

/-- Modelled from the spec: the per-(account, currency) record, holding the
`free` balance, the `reserved` balance and the set of named locks
`{lock_id, amount}`. -/
structure AccountData where
  free : ℕ
  reserved : ℕ
  locks : List (ℕ × ℕ)
deriving DecidableEq, Repr

/-- Modelled from the spec: `total_balance = free + reserved`. -/
def AccountData.total (a : AccountData) : ℕ := a.free + a.reserved

/-- Modelled from the spec: the effective lock on an account is the maximum
amount across all active locks (locks compose by most-restrictive-wins, not
by summation). -/
def effectiveLock (a : AccountData) : ℕ := (a.locks.map Prod.snd).foldr max 0

/-- Modelled from the spec: the whole ledger state, over `n` accounts and a
currency-identifier type `C`: per-account per-currency records plus the
per-currency `total_issuance`. -/
structure Ledger (n : ℕ) (C : Type) where
  accounts : Fin n → C → AccountData
  issuance : C → ℕ

/-- Modelled from the spec: ledger error kinds surfaced by the fallible
operations (`InsufficientBalance`, `Overflow`, `Underflow`). -/
inductive LedgerError where
  | insufficientBalance
  | overflow
  | underflow
deriving DecidableEq, Repr

variable {n : ℕ} {C : Type} [DecidableEq C]

/-- Point update of a single account record at one currency. -/
def updateAcc (s : Ledger n C) (who : Fin n) (c : C) (f : AccountData → AccountData) :
    Ledger n C :=
  { s with accounts :=
      Function.update s.accounts who (Function.update (s.accounts who) c (f (s.accounts who c))) }

/-- Point update of the total issuance of one currency. -/
def setIssuance (s : Ledger n C) (c : C) (v : ℕ) : Ledger n C :=
  { s with issuance := Function.update s.issuance c v }

theorem updateAcc_issuance (s : Ledger n C) (who : Fin n) (c : C) (f : AccountData → AccountData) :
    (updateAcc s who c f).issuance = s.issuance := rfl

theorem setIssuance_accounts (s : Ledger n C) (c : C) (v : ℕ) :
    (setIssuance s c v).accounts = s.accounts := rfl

theorem setIssuance_issuance_self (s : Ledger n C) (c : C) (v : ℕ) :
    (setIssuance s c v).issuance c = v := by
  simp [setIssuance]

theorem setIssuance_issuance_ne (s : Ledger n C) (c : C) (v : ℕ) (c2 : C) (h : c2 ≠ c) :
    (setIssuance s c v).issuance c2 = s.issuance c2 := by
  simp [setIssuance, Function.update_apply, h]

theorem updateAcc_self (s : Ledger n C) (who : Fin n) (c : C) (f : AccountData → AccountData) :
    (updateAcc s who c f).accounts who c = f (s.accounts who c) := by
  simp [updateAcc]

theorem updateAcc_ne_acct (s : Ledger n C) (who : Fin n) (c : C) (f : AccountData → AccountData)
    (i : Fin n) (c2 : C) (h : i ≠ who) :
    (updateAcc s who c f).accounts i c2 = s.accounts i c2 := by
  simp [updateAcc, Function.update_apply, h]

theorem updateAcc_ne_cur (s : Ledger n C) (who : Fin n) (c : C) (f : AccountData → AccountData)
    (i : Fin n) (c2 : C) (h : c2 ≠ c) :
    (updateAcc s who c f).accounts i c2 = s.accounts i c2 := by
  by_cases hi : i = who
  · subst hi
    simp [updateAcc, Function.update_apply, h]
  · simp [updateAcc, Function.update_apply, hi]

/-- Sum over all accounts of `free + reserved` in one currency. -/
def sumBal (s : Ledger n C) (c : C) : ℕ :=
  ∑ i, ((s.accounts i c).free + (s.accounts i c).reserved)

theorem sumBal_setIssuance (s : Ledger n C) (c : C) (v : ℕ) (c2 : C) :
    sumBal (setIssuance s c v) c2 = sumBal s c2 := rfl

theorem sum_split (g : Fin n → ℕ) (who : Fin n) :
    ∑ i, g i = g who + ∑ i ∈ Finset.univ.erase who, g i :=
  (Finset.add_sum_erase _ g (Finset.mem_univ who)).symm

/-- A single account's balance is at most the per-currency sum. -/
theorem account_le_sumBal (s : Ledger n C) (who : Fin n) (c : C) :
    (s.accounts who c).free + (s.accounts who c).reserved ≤ sumBal s c := by
  have h := sum_split (fun i => (s.accounts i c).free + (s.accounts i c).reserved) who
  simp only [sumBal]
  omega

/-- Updating one account only exchanges that account's contribution inside
the per-currency sum (stated additively to avoid truncated subtraction). -/
theorem sumBal_updateAcc (s : Ledger n C) (who : Fin n) (c : C)
    (f : AccountData → AccountData) (c2 : C) :
    sumBal (updateAcc s who c f) c2 + ((s.accounts who c2).free + (s.accounts who c2).reserved)
      = sumBal s c2
        + (((updateAcc s who c f).accounts who c2).free
            + ((updateAcc s who c f).accounts who c2).reserved) := by
  have h1 := sum_split
    (fun i => ((updateAcc s who c f).accounts i c2).free
      + ((updateAcc s who c f).accounts i c2).reserved) who
  have h2 := sum_split (fun i => (s.accounts i c2).free + (s.accounts i c2).reserved) who
  have h3 : ∑ i ∈ Finset.univ.erase who,
      (((updateAcc s who c f).accounts i c2).free + ((updateAcc s who c f).accounts i c2).reserved)
      = ∑ i ∈ Finset.univ.erase who, ((s.accounts i c2).free + (s.accounts i c2).reserved) := by
    refine Finset.sum_congr rfl fun i hi => ?h
    rw [updateAcc_ne_acct s who c f i c2 (Finset.ne_of_mem_erase hi)]
  simp only [sumBal]
  omega

/-- Modelled from the spec: `ensure_can_withdraw` succeeds iff
`free_balance - amount >= effective_lock(who, currency)` (declared in
`Stp258Currency::ensure_can_withdraw`, implementation absent from the
repository).  Written without truncated subtraction. -/
def ensure_can_withdraw (c : C) (who : Fin n) (amount : ℕ) (s : Ledger n C) :
    Except LedgerError Unit :=
  if amount + effectiveLock (s.accounts who c) ≤ (s.accounts who c).free then .ok ()
  else .error .insufficientBalance

/-- Modelled from the spec: `deposit` increases `who.free` and
`total_issuance` by `amount`, atomically; fails with `Overflow` if either
would exceed the representable range (declared in
`Stp258Currency::deposit`, implementation absent from the repository). -/
def deposit (c : C) (who : Fin n) (amount : ℕ) (s : Ledger n C) :
    Except LedgerError (Ledger n C) :=
  if maxBalance < s.issuance c + amount ∨ maxBalance < (s.accounts who c).free + amount then
    .error .overflow
  else
    .ok (setIssuance (updateAcc s who c fun a => { a with free := a.free + amount }) c
      (s.issuance c + amount))

/-- Modelled from the spec: `withdraw` requires `ensure_can_withdraw`,
then decreases `who.free` and `total_issuance` by `amount` atomically
(declared in `Stp258Currency::withdraw`, implementation absent from the
repository). -/
def withdraw (c : C) (who : Fin n) (amount : ℕ) (s : Ledger n C) :
    Except LedgerError (Ledger n C) :=
  if (s.accounts who c).free < amount + effectiveLock (s.accounts who c) then
    .error .insufficientBalance
  else if s.issuance c < amount then .error .underflow
  else
    .ok (setIssuance (updateAcc s who c fun a => { a with free := a.free - amount }) c
      (s.issuance c - amount))

/-- Modelled from the spec: `transfer` is atomic, fails with
`InsufficientBalance` if `from` cannot withdraw, decreases `from.free` and
increases `to.free` on success, leaves issuance unchanged, and transferring
to the same account is a guaranteed no-op success (declared in
`Stp258Currency::transfer`, implementation absent from the repository). -/
def transfer (c : C) (source dest : Fin n) (amount : ℕ) (s : Ledger n C) :
    Except LedgerError (Ledger n C) :=
  if source = dest then .ok s
  else if (s.accounts source c).free < amount + effectiveLock (s.accounts source c) then
    .error .insufficientBalance
  else
    .ok (updateAcc (updateAcc s source c fun a => { a with free := a.free - amount })
      dest c fun a => { a with free := a.free + amount })

/-- Modelled from the spec: `slash` is a best-effort forced deduction of
`min(amount, free + reserved)`, taking from `free` first and then from
`reserved`, burning the deducted amount from issuance atomically and
returning the unpaid remainder; it never fails (declared in
`Stp258Currency::slash`, implementation absent from the repository). -/
def slash (c : C) (who : Fin n) (amount : ℕ) (s : Ledger n C) : Ledger n C × ℕ :=
  let a := s.accounts who c
  let deducted := min amount (a.free + a.reserved)
  let freeCut := min amount a.free
  let resCut := deducted - freeCut
  (setIssuance
    (updateAcc s who c fun a0 => { a0 with free := a0.free - freeCut,
                                           reserved := a0.reserved - resCut }) c
    (s.issuance c - deducted),
   amount - deducted)

/-- Modelled from the spec: `reserve` moves `value` from free to reserved
balance; if the free balance is lower than `value`, no funds move and an
error is returned (declared in `Stp258CurrencyReservable::reserve`,
implementation absent from the repository). -/
def reserve (c : C) (who : Fin n) (value : ℕ) (s : Ledger n C) :
    Except LedgerError (Ledger n C) :=
  if (s.accounts who c).free < value then .error .insufficientBalance
  else
    .ok (updateAcc s who c fun a => { a with free := a.free - value,
                                             reserved := a.reserved + value })

/-- Modelled from the spec: `unreserve` moves up to `value` from reserved to
free balance, never fails, and returns the unsatisfied remainder (declared
in `Stp258CurrencyReservable::unreserve`, implementation absent from the
repository). -/
def unreserve (c : C) (who : Fin n) (value : ℕ) (s : Ledger n C) : Ledger n C × ℕ :=
  let moved := min value (s.accounts who c).reserved
  (updateAcc s who c fun a => { a with free := a.free + moved, reserved := a.reserved - moved },
   value - moved)

/-- Modelled from the spec: `slash_reserved` deducts up to `value` from the
reserved balance (burning it from issuance), never fails, and returns the
unsatisfied remainder (declared in
`Stp258CurrencyReservable::slash_reserved`, implementation absent from the
repository). -/
def slash_reserved (c : C) (who : Fin n) (value : ℕ) (s : Ledger n C) : Ledger n C × ℕ :=
  let deducted := min value (s.accounts who c).reserved
  (setIssuance (updateAcc s who c fun a => { a with reserved := a.reserved - deducted }) c
    (s.issuance c - deducted),
   value - deducted)

/-- The destination kind of `repatriate_reserved`, mirroring
`frame_support::traits::BalanceStatus` re-exported by the repository. -/
inductive BalanceStatus where
  | free
  | reserved
deriving DecidableEq, Repr

/-- Modelled from the spec: `repatriate_reserved` moves up to `value` from
the reserved balance of `slashed` to the free or reserved balance of
`beneficiary` per `status`, returning the unsatisfied remainder (declared in
`Stp258CurrencyReservable::repatriate_reserved`, implementation absent from
the repository; in this model every account exists, so the operation always
succeeds). -/
def repatriate_reserved (c : C) (slashed beneficiary : Fin n) (value : ℕ)
    (status : BalanceStatus) (s : Ledger n C) : Ledger n C × ℕ :=
  let moved := min value (s.accounts slashed c).reserved
  let s1 := updateAcc s slashed c fun a => { a with reserved := a.reserved - moved }
  let s2 :=
    match status with
    | .free => updateAcc s1 beneficiary c fun a => { a with free := a.free + moved }
    | .reserved => updateAcc s1 beneficiary c fun a => { a with reserved := a.reserved + moved }
  (s2, value - moved)

/-- Modelled from the spec: `set_lock` replaces any existing lock of that id
with the new amount; locks never fail and do not check the current balance
(declared in `Stp258CurrencyLockable::set_lock`, implementation absent from
the repository). -/
def set_lock (lockId : ℕ) (c : C) (who : Fin n) (amount : ℕ) (s : Ledger n C) :
    Except LedgerError (Ledger n C) :=
  .ok (updateAcc s who c fun a =>
    { a with locks := (lockId, amount) :: a.locks.filter (fun l => l.1 != lockId) })

/-- Modelled from the spec: `extend_lock` replaces the stored amount for
that id only if the new amount is larger (monotonic tightening), creating
the lock if absent; it never fails and does not check the current balance
(declared in `Stp258CurrencyLockable::extend_lock`, implementation absent
from the repository). -/
def extend_lock (lockId : ℕ) (c : C) (who : Fin n) (amount : ℕ) (s : Ledger n C) :
    Except LedgerError (Ledger n C) :=
  .ok (updateAcc s who c fun a =>
    match a.locks.find? (fun l => l.1 == lockId) with
    | none => { a with locks := (lockId, amount) :: a.locks }
    | some l =>
        if l.2 < amount then
          { a with locks := (lockId, amount) :: a.locks.filter (fun l2 => l2.1 != lockId) }
        else a)

/-- Modelled from the spec: `remove_lock` deletes the named hold entirely;
it never fails (declared in `Stp258CurrencyLockable::remove_lock`,
implementation absent from the repository). -/
def remove_lock (lockId : ℕ) (c : C) (who : Fin n) (s : Ledger n C) :
    Except LedgerError (Ledger n C) :=
  .ok (updateAcc s who c fun a => { a with locks := a.locks.filter (fun l => l.1 != lockId) })

/-- One ledger operation, tagged with its arguments, for reasoning about
arbitrary operation sequences. -/
inductive Op (n : ℕ) (C : Type) where
  | deposit (c : C) (who : Fin n) (amount : ℕ)
  | withdraw (c : C) (who : Fin n) (amount : ℕ)
  | transfer (c : C) (source dest : Fin n) (amount : ℕ)
  | slash (c : C) (who : Fin n) (amount : ℕ)
  | reserve (c : C) (who : Fin n) (value : ℕ)
  | unreserve (c : C) (who : Fin n) (value : ℕ)
  | slashReserved (c : C) (who : Fin n) (value : ℕ)
  | repatriateReserved (c : C) (slashed beneficiary : Fin n) (value : ℕ) (status : BalanceStatus)
  | setLock (lockId : ℕ) (c : C) (who : Fin n) (amount : ℕ)
  | extendLock (lockId : ℕ) (c : C) (who : Fin n) (amount : ℕ)
  | removeLock (lockId : ℕ) (c : C) (who : Fin n)

/-- Keep the new state of a successful operation; a failed operation leaves
the ledger exactly as it was. -/
def runExcept (s : Ledger n C) (r : Except LedgerError (Ledger n C)) : Ledger n C :=
  match r with
  | .ok s2 => s2
  | .error _ => s

/-- Run one operation, discarding returned values and keeping the pre-state
on failure. -/
def runOp (op : Op n C) (s : Ledger n C) : Ledger n C :=
  match op with
  | .deposit c who amount => runExcept s (deposit c who amount s)
  | .withdraw c who amount => runExcept s (withdraw c who amount s)
  | .transfer c source dest amount => runExcept s (transfer c source dest amount s)
  | .slash c who amount => (slash c who amount s).1
  | .reserve c who value => runExcept s (reserve c who value s)
  | .unreserve c who value => (unreserve c who value s).1
  | .slashReserved c who value => (slash_reserved c who value s).1
  | .repatriateReserved c slashed beneficiary value status =>
      (repatriate_reserved c slashed beneficiary value status s).1
  | .setLock lockId c who amount => runExcept s (set_lock lockId c who amount s)
  | .extendLock lockId c who amount => runExcept s (extend_lock lockId c who amount s)
  | .removeLock lockId c who => runExcept s (remove_lock lockId c who s)

/-- Run a finite sequence of ledger operations. -/
def runOps (ops : List (Op n C)) (s : Ledger n C) : Ledger n C :=
  ops.foldl (fun acc op => runOp op acc) s

/-- Modelled from the spec: the issuance invariant —
`total_issuance(c) == sum over all accounts of free + reserved` for every
currency `c`. -/
def issuanceInvariant (s : Ledger n C) : Prop :=
  ∀ c, s.issuance c = sumBal s c

/-- Generic invariant step for an operation that rewrites one account at one
currency and sets that currency's issuance: if the issuance delta matches the
balance delta (stated additively), the invariant is preserved. -/
theorem issuanceInvariant_setIssuance_updateAcc (s : Ledger n C) (who : Fin n) (c : C)
    (f : AccountData → AccountData) (v : ℕ) (h : issuanceInvariant s)
    (hF : (s.accounts who c).free + (s.accounts who c).reserved ≤ s.issuance c →
      (f (s.accounts who c)).free + (f (s.accounts who c)).reserved + s.issuance c
        = ((s.accounts who c).free + (s.accounts who c).reserved) + v) :
    issuanceInvariant (setIssuance (updateAcc s who c f) c v) := by
  have hle : (s.accounts who c).free + (s.accounts who c).reserved ≤ s.issuance c := by
    rw [h c]
    exact account_le_sumBal s who c
  have hF2 := hF hle
  intro c2
  have hsum := sumBal_updateAcc s who c f c2
  have hinv := h c2
  rw [sumBal_setIssuance]
  by_cases hc : c2 = c
  · subst hc
    rw [setIssuance_issuance_self, updateAcc_self] at *
    omega
  · rw [setIssuance_issuance_ne _ _ _ _ hc, updateAcc_issuance]
    rw [updateAcc_ne_cur s who c f who c2 hc] at hsum
    omega

/-- Generic invariant step for an operation that rewrites one account at one
currency without touching issuance: if the account's `free + reserved` is
preserved, the invariant is preserved. -/
theorem issuanceInvariant_updateAcc (s : Ledger n C) (who : Fin n) (c : C)
    (f : AccountData → AccountData) (h : issuanceInvariant s)
    (hF : (f (s.accounts who c)).free + (f (s.accounts who c)).reserved
        = (s.accounts who c).free + (s.accounts who c).reserved) :
    issuanceInvariant (updateAcc s who c f) := by
  intro c2
  have hsum := sumBal_updateAcc s who c f c2
  have hinv := h c2
  rw [updateAcc_issuance]
  by_cases hc : c2 = c
  · subst hc
    rw [updateAcc_self] at hsum
    omega
  · rw [updateAcc_ne_cur s who c f who c2 hc] at hsum
    omega

theorem issuanceInvariant_deposit (c : C) (who : Fin n) (amount : ℕ) (s s2 : Ledger n C)
    (hok : deposit c who amount s = .ok s2) (h : issuanceInvariant s) :
    issuanceInvariant s2 := by
  unfold deposit at hok
  split at hok
  · exact absurd hok (by simp)
  · injection hok with hok
    subst hok
    refine issuanceInvariant_setIssuance_updateAcc s who c _ _ h fun hle => ?h
    simp only
    omega

theorem issuanceInvariant_withdraw (c : C) (who : Fin n) (amount : ℕ) (s s2 : Ledger n C)
    (hok : withdraw c who amount s = .ok s2) (h : issuanceInvariant s) :
    issuanceInvariant s2 := by
  unfold withdraw at hok
  split at hok
  · exact absurd hok (by simp)
  · rename_i hfree
    split at hok
    · exact absurd hok (by simp)
    · rename_i hiss
      injection hok with hok
      subst hok
      refine issuanceInvariant_setIssuance_updateAcc s who c _ _ h fun hle => ?h
      simp only
      omega

theorem issuanceInvariant_transfer (c : C) (source dest : Fin n) (amount : ℕ)
    (s s2 : Ledger n C) (hok : transfer c source dest amount s = .ok s2)
    (h : issuanceInvariant s) : issuanceInvariant s2 := by
  unfold transfer at hok
  split at hok
  · injection hok with hok
    subst hok
    exact h
  · split at hok
    · exact absurd hok (by simp)
    · rename_i hne hfree
      injection hok with hok
      subst hok
      intro c2
      have e1 := sumBal_updateAcc s source c
        (fun a => { a with free := a.free - amount }) c2
      have e2 := sumBal_updateAcc
        (updateAcc s source c fun a => { a with free := a.free - amount }) dest c
        (fun a => { a with free := a.free + amount }) c2
      have hinv := h c2
      simp only [updateAcc_issuance]
      by_cases hc : c2 = c
      · subst hc
        rw [updateAcc_self] at e1 e2
        simp only at e1 e2
        omega
      · have n1 : (updateAcc s source c fun a => { a with free := a.free - amount }).accounts
            source c2 = s.accounts source c2 :=
          updateAcc_ne_cur _ _ _ _ _ _ hc
        have n2 : (updateAcc
              (updateAcc s source c fun a => { a with free := a.free - amount }) dest c
              fun a => { a with free := a.free + amount }).accounts dest c2
            = (updateAcc s source c fun a => { a with free := a.free - amount }).accounts
                dest c2 :=
          updateAcc_ne_cur _ _ _ _ _ _ hc
        rw [n1] at e1
        rw [n2] at e2
        have n3 : (updateAcc s source c fun a => { a with free := a.free - amount }).accounts
            dest c2 = s.accounts dest c2 :=
          updateAcc_ne_cur _ _ _ _ _ _ hc
        rw [n3] at e2
        omega

theorem issuanceInvariant_slash (c : C) (who : Fin n) (amount : ℕ) (s : Ledger n C)
    (h : issuanceInvariant s) : issuanceInvariant (slash c who amount s).1 := by
  unfold slash
  simp only
  refine issuanceInvariant_setIssuance_updateAcc s who c _ _ h fun hle => ?h
  simp only
  omega

theorem issuanceInvariant_reserve (c : C) (who : Fin n) (value : ℕ) (s s2 : Ledger n C)
    (hok : reserve c who value s = .ok s2) (h : issuanceInvariant s) :
    issuanceInvariant s2 := by
  unfold reserve at hok
  split at hok
  · exact absurd hok (by simp)
  · rename_i hfree
    injection hok with hok
    subst hok
    refine issuanceInvariant_updateAcc s who c _ h ?h
    simp only
    omega

theorem issuanceInvariant_unreserve (c : C) (who : Fin n) (value : ℕ) (s : Ledger n C)
    (h : issuanceInvariant s) : issuanceInvariant (unreserve c who value s).1 := by
  unfold unreserve
  simp only
  refine issuanceInvariant_updateAcc s who c _ h ?h
  simp only
  omega

theorem issuanceInvariant_slash_reserved (c : C) (who : Fin n) (value : ℕ) (s : Ledger n C)
    (h : issuanceInvariant s) : issuanceInvariant (slash_reserved c who value s).1 := by
  unfold slash_reserved
  simp only
  refine issuanceInvariant_setIssuance_updateAcc s who c _ _ h fun hle => ?h
  simp only
  omega

theorem issuanceInvariant_repatriate_reserved (c : C) (slashed beneficiary : Fin n)
    (value : ℕ) (status : BalanceStatus) (s : Ledger n C) (h : issuanceInvariant s) :
    issuanceInvariant (repatriate_reserved c slashed beneficiary value status s).1 := by
  unfold repatriate_reserved
  simp only
  intro c2
  have e1 := sumBal_updateAcc s slashed c
    (fun a => { a with reserved := a.reserved - min value (s.accounts slashed c).reserved }) c2
  have hinv := h c2
  cases status with
  | free =>
      have e2 := sumBal_updateAcc
        (updateAcc s slashed c fun a =>
          { a with reserved := a.reserved - min value (s.accounts slashed c).reserved })
        beneficiary c
        (fun a => { a with free := a.free + min value (s.accounts slashed c).reserved }) c2
      simp only [updateAcc_issuance]
      by_cases hc : c2 = c
      · subst hc
        rw [updateAcc_self] at e1 e2
        simp only at e1 e2
        omega
      · have n1 : (updateAcc s slashed c fun a =>
              { a with reserved := a.reserved - min value (s.accounts slashed c).reserved }).accounts
            slashed c2 = s.accounts slashed c2 :=
          updateAcc_ne_cur _ _ _ _ _ _ hc
        have n2 : (updateAcc
              (updateAcc s slashed c fun a =>
                { a with reserved := a.reserved - min value (s.accounts slashed c).reserved })
              beneficiary c
              fun a => { a with free := a.free + min value (s.accounts slashed c).reserved }).accounts
              beneficiary c2
            = (updateAcc s slashed c fun a =>
                { a with reserved := a.reserved - min value (s.accounts slashed c).reserved }).accounts
                beneficiary c2 :=
          updateAcc_ne_cur _ _ _ _ _ _ hc
        rw [n1] at e1
        rw [n2] at e2
        omega
  | reserved =>
      have e2 := sumBal_updateAcc
        (updateAcc s slashed c fun a =>
          { a with reserved := a.reserved - min value (s.accounts slashed c).reserved })
        beneficiary c
        (fun a => { a with reserved := a.reserved + min value (s.accounts slashed c).reserved }) c2
      simp only [updateAcc_issuance]
      by_cases hc : c2 = c
      · subst hc
        rw [updateAcc_self] at e1 e2
        simp only at e1 e2
        omega
      · have n1 : (updateAcc s slashed c fun a =>
              { a with reserved := a.reserved - min value (s.accounts slashed c).reserved }).accounts
            slashed c2 = s.accounts slashed c2 :=
          updateAcc_ne_cur _ _ _ _ _ _ hc
        have n2 : (updateAcc
              (updateAcc s slashed c fun a =>
                { a with reserved := a.reserved - min value (s.accounts slashed c).reserved })
              beneficiary c
              fun a =>
                { a with reserved := a.reserved + min value (s.accounts slashed c).reserved }).accounts
              beneficiary c2
            = (updateAcc s slashed c fun a =>
                { a with reserved := a.reserved - min value (s.accounts slashed c).reserved }).accounts
                beneficiary c2 :=
          updateAcc_ne_cur _ _ _ _ _ _ hc
        rw [n1] at e1
        rw [n2] at e2
        omega

theorem issuanceInvariant_lockUpdate (s : Ledger n C) (who : Fin n) (c : C)
    (g : AccountData → List (ℕ × ℕ)) (h : issuanceInvariant s) :
    issuanceInvariant (updateAcc s who c fun a => { a with locks := g a }) := by
  refine issuanceInvariant_updateAcc s who c _ h ?h
  simp only

/-- Every single ledger operation preserves the issuance invariant; failed
operations leave the state unchanged. -/
theorem issuanceInvariant_runOp (op : Op n C) (s : Ledger n C) (h : issuanceInvariant s) :
    issuanceInvariant (runOp op s) := by
  cases op with
  | deposit c who amount =>
      simp only [runOp, runExcept]
      split
      · rename_i s2 heq
        exact issuanceInvariant_deposit c who amount s s2 heq h
      · exact h
  | withdraw c who amount =>
      simp only [runOp, runExcept]
      split
      · rename_i s2 heq
        exact issuanceInvariant_withdraw c who amount s s2 heq h
      · exact h
  | transfer c source dest amount =>
      simp only [runOp, runExcept]
      split
      · rename_i s2 heq
        exact issuanceInvariant_transfer c source dest amount s s2 heq h
      · exact h
  | slash c who amount => exact issuanceInvariant_slash c who amount s h
  | reserve c who value =>
      simp only [runOp, runExcept]
      split
      · rename_i s2 heq
        exact issuanceInvariant_reserve c who value s s2 heq h
      · exact h
  | unreserve c who value => exact issuanceInvariant_unreserve c who value s h
  | slashReserved c who value => exact issuanceInvariant_slash_reserved c who value s h
  | repatriateReserved c slashed beneficiary value status =>
      exact issuanceInvariant_repatriate_reserved c slashed beneficiary value status s h
  | setLock lockId c who amount =>
      simp only [runOp, runExcept, set_lock]
      exact issuanceInvariant_lockUpdate s who c _ h
  | extendLock lockId c who amount =>
      simp only [runOp, runExcept, extend_lock]
      refine issuanceInvariant_updateAcc s who c _ h ?h
      split
      · simp only
      · split
        · simp only
        · simp only
  | removeLock lockId c who =>
      simp only [runOp, runExcept, remove_lock]
      exact issuanceInvariant_lockUpdate s who c _ h

/-- The issuance invariant is preserved by every finite operation sequence. -/
theorem issuanceInvariant_runOps (ops : List (Op n C)) (s : Ledger n C)
    (h : issuanceInvariant s) : issuanceInvariant (runOps ops s) := by
  induction ops generalizing s with
  | nil => exact h
  | cons op rest ih => exact ih (runOp op s) (issuanceInvariant_runOp op s h)

/-- Direction of a supply adjustment (the `serpup`/`serpdown` split of the
`SerpMarket` trait). -/
inductive SerpDirection where
  | expansion
  | contraction
deriving DecidableEq, Repr

/-- Modelled from the spec: `serp_quote(market_price, rate, direction)` —
`fractioned = market_price - one_unit`, the quoted spread is
`fractioned * (rate * 2)`, and the quoted price is the spread plus the
market price for expansion, or the market price minus the spread for
contraction (declared in `SerpMarket::pay_serpup_by_quoted` and
`SerpMarket::pay_serpdown_by_quoted`, whose doc-comment drafts conflict;
implementation absent from the repository). -/
def serp_quote (marketPrice oneUnit rate : ℚ) (d : SerpDirection) : ℚ :=
  let fractioned := marketPrice - oneUnit
  let quoteSpread := fractioned * (rate * 2)
  match d with
  | .expansion => quoteSpread + marketPrice
  | .contraction => marketPrice - quoteSpread

/-- Modelled from the spec: `native_amount_for(quoted_price,
requested_change)` converts the requested stable-currency supply change into
the native-currency amount by dividing by the quoted price, rounding down. -/
def native_amount_for (quotedPrice : ℚ) (requestedChange : ℕ) : ℕ :=
  (Int.floor ((requestedChange : ℚ) / quotedPrice)).toNat

/-- Modelled from the spec: `supply_change = total_issuance(stable_currency)
* deviation / peg_unit` with floor rounding, `deviation = new_price -
peg_unit` (declared as `SerpTes::supply_change` /
`calculate_supply_change`, implementation absent from the repository). -/
def supply_change (issuance newPrice pegUnit : ℕ) : ℤ :=
  ((issuance : ℤ) * ((newPrice : ℤ) - (pegUnit : ℤ))) / (pegUnit : ℤ)

/-- Controller configuration, loaded externally: peg unit, no-op tolerance
band and incentive rate (the spec's per-stable-currency configuration
surface). -/
structure SerpConfig where
  pegUnit : ℕ
  tolerance : ℕ
  rate : ℚ

/-- Modelled from the spec: the expansion leg — deposit the supply change of
the stable currency to the serper and deposit the native-currency incentive
(priced by `serp_quote` in expansion mode) to the serper, both legs applied
atomically or neither (declared as `SerpTes::on_expand_supply`,
implementation absent from the repository). -/
def on_expand_supply (cfg : SerpConfig) (stable native : C) (serper : Fin n)
    (stablePrice expandBy : ℕ) (s : Ledger n C) : Except LedgerError (Ledger n C) :=
  let marketPrice : ℚ := (stablePrice : ℚ) / (cfg.pegUnit : ℚ)
  let quoted := serp_quote marketPrice 1 cfg.rate .expansion
  let incentive := native_amount_for quoted expandBy
  match deposit stable serper expandBy s with
  | .error e => .error e
  | .ok s1 => deposit native serper incentive s1

/-- Modelled from the spec: the contraction leg — withdraw (burn) the supply
change of the stable currency from the serper, then withdraw the
native-currency fee (priced by `serp_quote` in contraction mode), both legs
applied atomically or neither (declared as `SerpTes::on_contract_supply`,
implementation absent from the repository). -/
def on_contract_supply (cfg : SerpConfig) (stable native : C) (serper : Fin n)
    (stablePrice contractBy : ℕ) (s : Ledger n C) : Except LedgerError (Ledger n C) :=
  let marketPrice : ℚ := (stablePrice : ℚ) / (cfg.pegUnit : ℚ)
  let quoted := serp_quote marketPrice 1 cfg.rate .contraction
  let fee := native_amount_for quoted contractBy
  match withdraw stable serper contractBy s with
  | .error e => .error e
  | .ok s1 => withdraw native serper fee s1

/-- Modelled from the spec: the per-tick controller `on_serp_block` — skip
the tick successfully when either price is unavailable, no-op when the
deviation is zero or below tolerance, otherwise expand (deviation positive)
or contract (deviation negative) by `supply_change` (declared as
`SerpTes::on_serp_block`, implementation absent from the repository). -/
def on_serp_block (cfg : SerpConfig) (stable native : C) (serper : Fin n)
    (stablePrice nativePrice : Option ℕ) (s : Ledger n C) :
    Except LedgerError (Ledger n C) :=
  match stablePrice, nativePrice with
  | some sp, some _np =>
      let dev : ℤ := (sp : ℤ) - (cfg.pegUnit : ℤ)
      if dev.natAbs < cfg.tolerance ∨ dev = 0 then .ok s
      else
        let change := supply_change (s.issuance stable) sp cfg.pegUnit
        if 0 < dev then on_expand_supply cfg stable native serper sp change.toNat s
        else on_contract_supply cfg stable native serper sp change.natAbs s
  | _, _ => .ok s

/-- The host-side tick runner: commit the new ledger on success, keep the
pre-tick ledger on failure (the spec's staged-apply-on-success discipline). -/
def apply_serp_tick (cfg : SerpConfig) (stable native : C) (serper : Fin n)
    (stablePrice nativePrice : Option ℕ) (s : Ledger n C) : Ledger n C :=
  runExcept s (on_serp_block cfg stable native serper stablePrice nativePrice s)

/-- Embeds `checked_div` as used by `DefaultSerpTesPriceProvider` in
`src/src/serp_tes.rs` (the `CheckedDiv` bound on `Price`): division that
returns `none` exactly when the divisor is zero. -/
def checked_div (a b : ℚ) : Option ℚ :=
  if b = 0 then none else some (a / b)

/-- Embeds `DefaultSerpTesPriceProvider::get_price` from
`src/src/serp_tes.rs` lines 77-82: fetch the base price, fetch the quote
price (each `?`-propagating `None`), then `base_price.checked_div(&quote_price)`. -/
def get_price {CurrencyId : Type} (source : CurrencyId → Option ℚ)
    (baseCurrencyId quoteCurrencyId : CurrencyId) : Option ℚ :=
  match source baseCurrencyId with
  | none => none
  | some basePrice =>
      match source quoteCurrencyId with
      | none => none
      | some quotePrice => checked_div basePrice quotePrice

/-- Embeds `impl OnDust for ()` from `src/src/stp258.rs` lines 345-347: the
body is empty, so the handler returns unit and its action on any ledger
state is the identity. -/
def unitOnDust (who : Fin n) (currencyId : C) (amount : ℕ) (s : Ledger n C) :
    Unit × Ledger n C :=
  ((), s)

/-- Embeds `impl OnStp258Dust for ()` from `src/src/stp258_stable_currency.rs`
lines 213-215: the body is empty, so the handler returns unit and its action
on any ledger state is the identity. -/
def unitOnStp258Dust (who : Fin n) (currencyId : C) (amount : ℕ) (s : Ledger n C) :
    Unit × Ledger n C :=
  ((), s)

/-- Claim C3: for every market price, peg unit and rate in [0, 1],
`serp_quote` satisfies `fractioned = market_price - one_unit`,
`quotation = fractioned * (rate * 2)`, with `quoted = quotation +
market_price` in expansion mode and `quoted = market_price - quotation` in
contraction mode; at peg (`market_price = one_unit`) and at `rate = 0` the
quoted price equals the market price. -/
theorem c3_serp_quote_formula (marketPrice oneUnit rate : ℚ)
    (h0 : 0 ≤ rate) (h1 : rate ≤ 1) :
    serp_quote marketPrice oneUnit rate .expansion
        = (marketPrice - oneUnit) * (rate * 2) + marketPrice
    ∧ serp_quote marketPrice oneUnit rate .contraction
        = marketPrice - (marketPrice - oneUnit) * (rate * 2)
    ∧ (marketPrice = oneUnit → ∀ d, serp_quote marketPrice oneUnit rate d = marketPrice)
    ∧ (rate = 0 → ∀ d, serp_quote marketPrice oneUnit rate d = marketPrice) := by
  refine ⟨rfl, rfl, ?hpeg, ?hzero⟩
  · intro h d
    subst h
    cases d <;> simp [serp_quote]
  · intro h d
    subst h
    cases d <;> simp [serp_quote]

/-- Witness for C3 at market price 11/10, peg unit 1 and rate 1/2. -/
theorem c3_serp_quote_formula_witness :
    serp_quote (11 / 10 : ℚ) 1 (1 / 2) .expansion
        = ((11 / 10 : ℚ) - 1) * ((1 / 2) * 2) + 11 / 10
    ∧ serp_quote (11 / 10 : ℚ) 1 (1 / 2) .contraction
        = (11 / 10 : ℚ) - ((11 / 10) - 1) * ((1 / 2) * 2)
    ∧ ((11 / 10 : ℚ) = 1 → ∀ d, serp_quote (11 / 10) 1 (1 / 2) d = 11 / 10)
    ∧ ((1 / 2 : ℚ) = 0 → ∀ d, serp_quote (11 / 10) 1 (1 / 2) d = 11 / 10) :=
  c3_serp_quote_formula (11 / 10) 1 (1 / 2) (by norm_num) (by norm_num)

/-- Counterexample for C4: at peg unit 1000, stable price 3000 and
outstanding issuance 1_000_000 the proportional formula yields 2_000_000,
whose magnitude exceeds the outstanding issuance, so the claimed unqualified
bound is false. -/
theorem c4_supply_change_counterexample :
    supply_change 1000000 3000 1000 = 2000000
    ∧ ¬ (supply_change 1000000 3000 1000).natAbs ≤ 1000000 :=
  ⟨by decide, by decide⟩

/-- Claim C4 (amended): `supply_change` is the proportional formula
`issuance * (price - peg) / peg` with floor rounding, zero at zero
deviation, its magnitude bounded by the outstanding issuance whenever the
price does not exceed twice the peg (absolute deviation at most one peg
unit), and 100_000 in the concrete scenario of the spec. -/
theorem c4_supply_change_amended (issuance newPrice pegUnit : ℕ)
    (hpeg : 0 < pegUnit) (hdev : newPrice ≤ 2 * pegUnit) :
    supply_change issuance newPrice pegUnit
        = ((issuance : ℤ) * ((newPrice : ℤ) - (pegUnit : ℤ))) / (pegUnit : ℤ)
    ∧ (newPrice = pegUnit → supply_change issuance newPrice pegUnit = 0)
    ∧ (supply_change issuance newPrice pegUnit).natAbs ≤ issuance
    ∧ supply_change 1000000 1100 1000 = 100000 := by
  have hpegZ : (0 : ℤ) < (pegUnit : ℤ) := by exact_mod_cast hpeg
  refine ⟨rfl, ?hz, ?hb, by decide⟩
  · intro h
    subst h
    simp [supply_change]
  · have hub : supply_change issuance newPrice pegUnit ≤ (issuance : ℤ) := by
      have hle : (issuance : ℤ) * ((newPrice : ℤ) - (pegUnit : ℤ))
          ≤ (issuance : ℤ) * (pegUnit : ℤ) := by
        have hd : ((newPrice : ℤ) - (pegUnit : ℤ)) ≤ (pegUnit : ℤ) := by
          have : (newPrice : ℤ) ≤ 2 * (pegUnit : ℤ) := by exact_mod_cast hdev
          omega
        exact mul_le_mul_of_nonneg_left hd (by positivity)
      have hmono := Int.ediv_le_ediv hpegZ hle
      rwa [Int.mul_ediv_cancel _ hpegZ.ne'] at hmono
    have hlb : -(issuance : ℤ) ≤ supply_change issuance newPrice pegUnit := by
      have hge : (-(issuance : ℤ)) * (pegUnit : ℤ)
          ≤ (issuance : ℤ) * ((newPrice : ℤ) - (pegUnit : ℤ)) := by
        have hd : -(pegUnit : ℤ) ≤ ((newPrice : ℤ) - (pegUnit : ℤ)) := by
          have : (0 : ℤ) ≤ (newPrice : ℤ) := by positivity
          omega
        have := mul_le_mul_of_nonneg_left hd
          (show (0 : ℤ) ≤ (issuance : ℤ) by positivity)
        nlinarith
      have hmono := Int.ediv_le_ediv hpegZ hge
      rwa [Int.mul_ediv_cancel _ hpegZ.ne'] at hmono
    set x := supply_change issuance newPrice pegUnit with hx
    clear hx
    clear_value x
    omega

/-- Witness for C4 (amended) at the spec's concrete scenario. -/
theorem c4_supply_change_amended_witness :
    supply_change 1000000 1100 1000
        = ((1000000 : ℤ) * ((1100 : ℤ) - (1000 : ℤ))) / (1000 : ℤ)
    ∧ ((1100 : ℕ) = 1000 → supply_change 1000000 1100 1000 = 0)
    ∧ (supply_change 1000000 1100 1000).natAbs ≤ 1000000
    ∧ supply_change 1000000 1100 1000 = 100000 :=
  c4_supply_change_amended 1000000 1100 1000 (by decide) (by decide)

/-- Claim C5: `slash` never fails (it is a total function), deducts
`min(amount, free + reserved)` taking from `free` first and then from
`reserved`, returns the unpaid remainder `amount - deducted` with
`deducted ≤ amount`, and leaves `free + reserved` equal to the old total
minus the deducted amount (never negative). -/
theorem c5_slash_saturation (c : C) (who : Fin n) (amount : ℕ) (s : Ledger n C) :
    (slash c who amount s).2
        = amount - min amount ((s.accounts who c).free + (s.accounts who c).reserved)
    ∧ min amount ((s.accounts who c).free + (s.accounts who c).reserved) ≤ amount
    ∧ ((slash c who amount s).1.accounts who c).free
        = (s.accounts who c).free - min amount (s.accounts who c).free
    ∧ ((slash c who amount s).1.accounts who c).reserved
        = (s.accounts who c).reserved
          - (min amount ((s.accounts who c).free + (s.accounts who c).reserved)
              - min amount (s.accounts who c).free)
    ∧ ((slash c who amount s).1.accounts who c).free
          + ((slash c who amount s).1.accounts who c).reserved
        = ((s.accounts who c).free + (s.accounts who c).reserved)
          - min amount ((s.accounts who c).free + (s.accounts who c).reserved) := by
  unfold slash
  simp only
  rw [setIssuance_accounts, updateAcc_self]
  simp only
  refine ⟨trivial, by omega, trivial, trivial, by omega⟩

/-- Counterexample for C6: with `A = B`, `free(A) = 0` and `x = 1` the
failure condition `free(A) < x + effective_lock(A)` holds, yet `transfer`
succeeds as a no-op instead of failing with `InsufficientBalance`. -/
def c6state : Ledger 1 Unit :=
  ⟨fun _ _ => ⟨0, 0, []⟩, fun _ => 0⟩

/-- Counterexample theorem for C6 (see `c6state`). -/
theorem c6_transfer_counterexample :
    (c6state.accounts 0 ()).free < 1 + effectiveLock (c6state.accounts 0 ())
    ∧ transfer () 0 0 1 c6state = .ok c6state
    ∧ transfer () 0 0 1 c6state ≠ .error .insufficientBalance := by
  refine ⟨by decide, rfl, ?hne⟩
  intro h
  rw [show transfer () (0 : Fin 1) 0 1 c6state = .ok c6state from rfl] at h
  exact Except.noConfusion h

/-- Claim C6 (amended): for distinct accounts, `transfer` fails with
`InsufficientBalance` and mutates nothing when
`free(A) < x + effective_lock(A)`; on success between distinct accounts it
decreases `free(A)` by `x`, increases `free(B)` by `x`, conserves
`free(A) + free(B)` and all issuance; transferring to the same account is a
guaranteed no-op success for every amount. -/
theorem c6_transfer_amended (c : C) (source dest : Fin n) (amount : ℕ) (s : Ledger n C) :
    (source ≠ dest →
      (s.accounts source c).free < amount + effectiveLock (s.accounts source c) →
      transfer c source dest amount s = .error .insufficientBalance)
    ∧ (∀ s2, transfer c source dest amount s = .ok s2 → source ≠ dest →
        (s2.accounts source c).free + amount = (s.accounts source c).free
        ∧ (s2.accounts dest c).free = (s.accounts dest c).free + amount
        ∧ (s2.accounts source c).free + (s2.accounts dest c).free
            = (s.accounts source c).free + (s.accounts dest c).free
        ∧ s2.issuance = s.issuance)
    ∧ (source = dest → transfer c source dest amount s = .ok s) := by
  refine ⟨?hfail, ?hok, ?hself⟩
  · intro hne hlt
    simp only [transfer, if_neg hne, if_pos hlt]
  · intro s2 hok hne
    unfold transfer at hok
    rw [if_neg hne] at hok
    split at hok
    · exact absurd hok (by simp)
    · rename_i hfree
      injection hok with hok
      subst hok
      have hsrcf : ((updateAcc (updateAcc s source c fun a => { a with free := a.free - amount })
          dest c fun a => { a with free := a.free + amount }).accounts source c).free
          = (s.accounts source c).free - amount := by
        rw [updateAcc_ne_acct _ _ _ _ source c hne, updateAcc_self]
      have hdstf : ((updateAcc (updateAcc s source c fun a => { a with free := a.free - amount })
          dest c fun a => { a with free := a.free + amount }).accounts dest c).free
          = (s.accounts dest c).free + amount := by
        rw [updateAcc_self]
        have hmid : ((updateAcc s source c fun a =>
            { a with free := a.free - amount }).accounts dest c)
            = s.accounts dest c :=
          updateAcc_ne_acct _ _ _ _ dest c (Ne.symm hne)
        rw [hmid]
      rw [hsrcf, hdstf]
      refine ⟨by omega, rfl, by omega, rfl⟩
  · intro h
    simp only [transfer, if_pos h]

/-- Witness for C6 (amended): a failing transfer between distinct accounts
and a same-account no-op, at concrete inputs. -/
def c6state2 : Ledger 2 Unit :=
  ⟨fun _ _ => ⟨0, 0, []⟩, fun _ => 0⟩

/-- Witness theorem for C6 (amended), using `c6state2`. -/
theorem c6_transfer_amended_witness :
    transfer () (0 : Fin 2) 1 5 c6state2 = .error .insufficientBalance
    ∧ transfer () (0 : Fin 2) 0 5 c6state2 = .ok c6state2 :=
  ⟨(c6_transfer_amended () (0 : Fin 2) 1 5 c6state2).1 (by decide) (by decide),
   (c6_transfer_amended () (0 : Fin 2) 0 5 c6state2).2.2 rfl⟩

/-- Claim C7: `get_price` returns `none` exactly when the underlying data
provider lacks a price for the base or for the quote currency, or when the
checked division is undefined (zero quote price); otherwise it returns
`some (base_price / quote_price)`.  It is a total function: it never
returns an error and cannot panic. -/
theorem c7_get_price_cases {CurrencyId : Type} (source : CurrencyId → Option ℚ)
    (base quote : CurrencyId) :
    (∀ basePrice quotePrice, source base = some basePrice →
        source quote = some quotePrice → quotePrice ≠ 0 →
        get_price source base quote = some (basePrice / quotePrice))
    ∧ (∀ basePrice quotePrice, source base = some basePrice →
        source quote = some quotePrice → quotePrice = 0 →
        get_price source base quote = none)
    ∧ (source base = none → get_price source base quote = none)
    ∧ (source quote = none → get_price source base quote = none) := by
  refine ⟨?hsome, ?hzero, ?hbase, ?hquote⟩
  · intro basePrice quotePrice hb hq hnz
    simp [get_price, hb, hq, checked_div, hnz]
  · intro basePrice quotePrice hb hq hz
    simp [get_price, hb, hq, checked_div, hz]
  · intro hb
    simp [get_price, hb]
  · intro hq
    cases hb : source base <;> simp [get_price, hb, hq]

/-- Concrete price source for the C7 witness. -/
def c7source : Bool → Option ℚ :=
  fun b => if b then some 3 else some 2

/-- Witness theorem for C7, using `c7source`. -/
theorem c7_get_price_cases_witness :
    get_price c7source true false = some (3 / 2) :=
  (c7_get_price_cases c7source true false).1 3 2 rfl rfl (by norm_num)

/-- Claim C10: the unit implementations of the dust handlers are total
no-ops: they return unit and leave every account and every issuance of any
ledger state untouched, silently discarding the dust notification. -/
theorem c10_dust_handlers_noop (who : Fin n) (currencyId : C) (amount : ℕ)
    (s : Ledger n C) :
    unitOnDust who currencyId amount s = ((), s)
    ∧ unitOnStp258Dust who currencyId amount s = ((), s)
    ∧ (unitOnDust who currencyId amount s).2.accounts = s.accounts
    ∧ (unitOnDust who currencyId amount s).2.issuance = s.issuance
    ∧ (unitOnStp258Dust who currencyId amount s).2.accounts = s.accounts
    ∧ (unitOnStp258Dust who currencyId amount s).2.issuance = s.issuance :=
  ⟨rfl, rfl, rfl, rfl, rfl, rfl⟩

/-- Claim C9: starting from an account with no locks, `extend_lock` with
amount `a` followed by `extend_lock` with amount `b` (same lock id) yields
an effective lock of `max a b`, never `a + b`; and the lock operations
`set_lock`, `extend_lock` and `remove_lock` always succeed, regardless of
the account's current balance. -/
theorem c9_extend_lock_max (lockId : ℕ) (c : C) (who : Fin n) (a b : ℕ) (s : Ledger n C)
    (h : (s.accounts who c).locks = []) :
    (∀ s1 s2, extend_lock lockId c who a s = .ok s1 → extend_lock lockId c who b s1 = .ok s2 →
        effectiveLock (s2.accounts who c) = max a b)
    ∧ (∀ lockId2 (c2 : C) (who2 : Fin n) amount s0,
        (set_lock lockId2 c2 who2 amount s0).isOk = true)
    ∧ (∀ lockId2 (c2 : C) (who2 : Fin n) amount s0,
        (extend_lock lockId2 c2 who2 amount s0).isOk = true)
    ∧ (∀ lockId2 (c2 : C) (who2 : Fin n) s0,
        (remove_lock lockId2 c2 who2 s0).isOk = true) := by
  refine ⟨?hmax, fun _ _ _ _ _ => rfl, fun _ _ _ _ _ => rfl, fun _ _ _ _ => rfl⟩
  intro s1 s2 h1 h2
  unfold extend_lock at h1 h2
  injection h1 with h1
  injection h2 with h2
  subst h1
  subst h2
  rw [updateAcc_self, updateAcc_self]
  simp only [h, List.find?_nil, List.find?_cons, beq_self_eq_true, List.filter]
  split
  · simp [effectiveLock]
    omega
  · simp [effectiveLock]
    omega

/-- Concrete empty-lock state for the C9 witness. -/
def c9state : Ledger 1 Unit :=
  ⟨fun _ _ => ⟨0, 0, []⟩, fun _ => 0⟩

/-- First extend of the C9 witness. -/
def c9state1 : Ledger 1 Unit :=
  runExcept c9state (extend_lock 7 () 0 2 c9state)

/-- Second extend of the C9 witness. -/
def c9state2 : Ledger 1 Unit :=
  runExcept c9state1 (extend_lock 7 () 0 5 c9state1)

/-- Witness theorem for C9: extending a fresh lock by 2 and then 5 yields an
effective lock of `max 2 5`. -/
theorem c9_extend_lock_max_witness :
    effectiveLock (c9state2.accounts 0 ()) = max 2 5 :=
  (c9_extend_lock_max 7 () 0 2 5 c9state rfl).1 c9state1 c9state2 rfl rfl

/-- Claim C8: whenever the stable-currency price or the native-currency
price is unavailable for a tick, `on_serp_block` returns `Ok` with the
input state and the committed tick performs no ledger mutation. -/
theorem c8_missing_price_noop (cfg : SerpConfig) (stable native : C) (serper : Fin n)
    (stablePrice nativePrice : Option ℕ) (s : Ledger n C)
    (h : stablePrice = none ∨ nativePrice = none) :
    on_serp_block cfg stable native serper stablePrice nativePrice s = .ok s
    ∧ apply_serp_tick cfg stable native serper stablePrice nativePrice s = s := by
  have hmain : on_serp_block cfg stable native serper stablePrice nativePrice s = .ok s := by
    cases h with
    | inl h =>
        subst h
        cases nativePrice <;> rfl
    | inr h =>
        subst h
        cases stablePrice <;> rfl
  refine ⟨hmain, ?happly⟩
  unfold apply_serp_tick
  rw [hmain]
  rfl

/-- Concrete instantiation state for the C8 witness. -/
def c8state : Ledger 1 Unit :=
  ⟨fun _ _ => ⟨3, 4, []⟩, fun _ => 7⟩

/-- Witness theorem for C8: a tick with a missing stable price is a
successful no-op. -/
theorem c8_missing_price_noop_witness :
    on_serp_block ⟨1000, 0, 1 / 100⟩ () () 0 none (some 10000) c8state = .ok c8state
    ∧ apply_serp_tick ⟨1000, 0, 1 / 100⟩ () () 0 none (some 10000) c8state = c8state :=
  c8_missing_price_noop ⟨1000, 0, 1 / 100⟩ () () 0 none (some 10000) c8state (Or.inl rfl)

/-- Claim C1: starting from any state satisfying the issuance invariant,
every finite sequence of ledger operations preserves
`total_issuance(c) = Σ (free + reserved)` for every currency; moreover
`deposit` increases issuance by exactly the deposited amount atomically with
the free-balance increase, `withdraw` and `slash` decrease issuance
atomically with the balance decrease, and `transfer` leaves every issuance
unchanged. -/
theorem c1_issuance_invariant (ops : List (Op n C)) (c : C) (s : Ledger n C)
    (h : issuanceInvariant s) :
    issuanceInvariant (runOps ops s)
    ∧ (∀ (who : Fin n) amount s2, deposit c who amount s = .ok s2 →
        s2.issuance c = s.issuance c + amount
        ∧ (s2.accounts who c).free = (s.accounts who c).free + amount
        ∧ (s2.accounts who c).reserved = (s.accounts who c).reserved)
    ∧ (∀ (who : Fin n) amount s2, withdraw c who amount s = .ok s2 →
        s2.issuance c + amount = s.issuance c
        ∧ (s2.accounts who c).free + amount = (s.accounts who c).free)
    ∧ (∀ (who : Fin n) amount,
        (slash c who amount s).1.issuance c
            + min amount ((s.accounts who c).free + (s.accounts who c).reserved)
          = s.issuance c)
    ∧ (∀ (who : Fin n) amount,
        ((slash c who amount s).1.accounts who c).free
            + ((slash c who amount s).1.accounts who c).reserved
          = ((s.accounts who c).free + (s.accounts who c).reserved)
            - min amount ((s.accounts who c).free + (s.accounts who c).reserved))
    ∧ (∀ (source dest : Fin n) amount s2, transfer c source dest amount s = .ok s2 →
        s2.issuance = s.issuance) := by
  refine ⟨issuanceInvariant_runOps ops s h, ?hdep, ?hwd, ?hsli, ?hsla, ?htr⟩
  · intro who amount s2 hok
    unfold deposit at hok
    split at hok
    · exact absurd hok (by simp)
    · injection hok with hok
      subst hok
      refine ⟨setIssuance_issuance_self _ _ _, ?hf, ?hr⟩
      · rw [setIssuance_accounts, updateAcc_self]
      · rw [setIssuance_accounts, updateAcc_self]
  · intro who amount s2 hok
    unfold withdraw at hok
    split at hok
    · exact absurd hok (by simp)
    · rename_i hfree
      split at hok
      · exact absurd hok (by simp)
      · rename_i hiss
        injection hok with hok
        subst hok
        constructor
        · rw [setIssuance_issuance_self]
          omega
        · rw [setIssuance_accounts, updateAcc_self]
          simp only
          omega
  · intro who amount
    have hle := account_le_sumBal s who c
    have hinv := h c
    unfold slash
    simp only
    rw [setIssuance_issuance_self]
    omega
  · intro who amount
    unfold slash
    simp only
    rw [setIssuance_accounts, updateAcc_self]
    simp only
    omega
  · intro source dest amount s2 hok
    unfold transfer at hok
    split at hok
    · injection hok with hok
      subst hok
      rfl
    · split at hok
      · exact absurd hok (by simp)
      · injection hok with hok
        subst hok
        rfl

/-- Concrete two-account state satisfying the issuance invariant, for the
C1 witness. -/
def c1state : Ledger 2 Unit :=
  ⟨fun _ _ => ⟨5, 7, []⟩, fun _ => 24⟩

/-- Witness theorem for C1: the invariant survives a concrete operation
sequence from a concrete invariant-satisfying state. -/
theorem c1_issuance_invariant_witness :
    issuanceInvariant
      (runOps [Op.deposit () 0 3, Op.transfer () 0 1 2, Op.slash () 1 100] c1state) :=
  (c1_issuance_invariant [Op.deposit () 0 3, Op.transfer () 0 1 2, Op.slash () 1 100] ()
    c1state (by intro c; cases c; decide)).1

/-- Claim C2: whenever any ledger operation inside an expansion or
contraction leg fails, `on_serp_block` returns that error and the committed
tick leaves every account and every issuance exactly as before; in
particular, under expansion conditions where the stable-currency deposit
would succeed but the native-currency incentive deposit would overflow, the
tick returns the overflow error and the serper's stable-currency balance is
unchanged — the stable leg is not applied when the native leg fails. -/
theorem c2_tick_atomicity (cfg : SerpConfig) (stable native : C) (serper : Fin n)
    (sp np : ℕ) (s : Ledger n C)
    (htol : ¬ ((sp : ℤ) - (cfg.pegUnit : ℤ)).natAbs < cfg.tolerance)
    (hpos : 0 < (sp : ℤ) - (cfg.pegUnit : ℤ))
    (hcur : native ≠ stable)
    (hstable : ¬ (maxBalance < s.issuance stable
          + (supply_change (s.issuance stable) sp cfg.pegUnit).toNat
        ∨ maxBalance < (s.accounts serper stable).free
          + (supply_change (s.issuance stable) sp cfg.pegUnit).toNat))
    (hnative : maxBalance < s.issuance native
        + native_amount_for (serp_quote ((sp : ℚ) / (cfg.pegUnit : ℚ)) 1 cfg.rate .expansion)
            (supply_change (s.issuance stable) sp cfg.pegUnit).toNat) :
    (∀ stablePrice nativePrice e,
        on_serp_block cfg stable native serper stablePrice nativePrice s = .error e →
        apply_serp_tick cfg stable native serper stablePrice nativePrice s = s)
    ∧ on_serp_block cfg stable native serper (some sp) (some np) s = .error .overflow
    ∧ apply_serp_tick cfg stable native serper (some sp) (some np) s = s
    ∧ ((apply_serp_tick cfg stable native serper (some sp) (some np) s).accounts
          serper stable).free
        = (s.accounts serper stable).free := by
  have herr : on_serp_block cfg stable native serper (some sp) (some np) s
      = .error .overflow := by
    simp only [on_serp_block]
    rw [if_neg (show ¬ (((sp : ℤ) - (cfg.pegUnit : ℤ)).natAbs < cfg.tolerance
        ∨ (sp : ℤ) - (cfg.pegUnit : ℤ) = 0) from by
          push_neg
          exact ⟨by omega, by omega⟩)]
    rw [if_pos hpos]
    unfold on_expand_supply
    have hdep : deposit stable serper
        (supply_change (s.issuance stable) sp cfg.pegUnit).toNat s
        = .ok (setIssuance
            (updateAcc s serper stable fun a =>
              { a with free := a.free
                  + (supply_change (s.issuance stable) sp cfg.pegUnit).toNat }) stable
            (s.issuance stable
              + (supply_change (s.issuance stable) sp cfg.pegUnit).toNat)) := by
      unfold deposit
      rw [if_neg hstable]
    rw [hdep]
    simp only
    unfold deposit
    rw [if_pos]
    left
    rw [setIssuance_issuance_ne _ _ _ _ hcur, updateAcc_issuance]
    exact hnative
  have hgen : ∀ stablePrice nativePrice (e : LedgerError),
      on_serp_block cfg stable native serper stablePrice nativePrice s = .error e →
      apply_serp_tick cfg stable native serper stablePrice nativePrice s = s := by
    intro stablePrice nativePrice e he
    unfold apply_serp_tick
    rw [he]
    rfl
  have happly : apply_serp_tick cfg stable native serper (some sp) (some np) s = s :=
    hgen (some sp) (some np) .overflow herr
  exact ⟨hgen, herr, happly, by rw [happly]⟩

/-- Concrete state for the C2 witness: the native currency (`false`) sits at
the issuance cap so that the incentive deposit of the expansion leg must
overflow, while the stable currency (`true`) matches the spec's concrete
scenario. -/
def c2state : Ledger 1 Bool :=
  ⟨fun _ c => if c then ⟨1000000, 0, []⟩ else ⟨maxBalance, 0, []⟩,
   fun c => if c then 1000000 else maxBalance⟩

/-- Witness theorem for C2: at the spec's concrete scenario with the native
issuance at the cap, the tick fails with overflow and the serper's
stable-currency balance is untouched. -/
theorem c2_tick_atomicity_witness :
    on_serp_block ⟨1000, 0, 1 / 100⟩ true false 0 (some 1100) (some 10000) c2state
        = .error .overflow
    ∧ ((apply_serp_tick ⟨1000, 0, 1 / 100⟩ true false 0 (some 1100) (some 10000)
          c2state).accounts 0 true).free
        = (c2state.accounts 0 true).free :=
  ⟨(c2_tick_atomicity ⟨1000, 0, 1 / 100⟩ true false 0 1100 10000 c2state (by decide)
      (by decide) (by decide) (by decide)
      (by
        norm_num [c2state, native_amount_for, serp_quote, supply_change, maxBalance]
        rw [show Int.toNat (100000 : ℤ) = 100000 from rfl]
        norm_num)).2.1,
   (c2_tick_atomicity ⟨1000, 0, 1 / 100⟩ true false 0 1100 10000 c2state (by decide)
      (by decide) (by decide) (by decide)
      (by
        norm_num [c2state, native_amount_for, serp_quote, supply_change, maxBalance]
        rw [show Int.toNat (100000 : ℤ) = 100000 from rfl]
        norm_num)).2.2.2⟩

end SerpTraits
